import Mathlib

/-!
Shallow embedding of `copilot_log_converter.py`: a converter from structured
chat-session logs to Markdown transcripts.  Python strings are Lean `String`s,
Python's dynamic values are the inductive `PyVal`, and the converter's
functions are translated one-to-one.  Where the Python code would raise a
`TypeError` or `AttributeError` on values of an unexpected runtime type (and
the conversion would crash), the embedding reads a default value instead; all
theorems and concrete inputs below use well-typed values, on which the
embedding and the source agree.  Filesystem, regex and `os.path` collaborators
(`to_relative_path`, `strip_ansi_codes`, and the regex-based message cleaning
inside the serialized-tool-invocation branch) are taken as opaque function
parameters, following the specification's note that these are external
collaborators of the core pipeline.
-/

namespace CopilotLog

/-- Python whitespace test for the ASCII characters removed by `str.strip()`. -/
def pyIsSpace (c : Char) : Bool :=
  c = ' ' || c = '\t' || c = '\n' || c = '\r' || c = '\x0b' || c = '\x0c'

/-- Python `str.lstrip()` on character lists. -/
def stripLeftList (l : List Char) : List Char := l.dropWhile pyIsSpace

/-- Python `str.rstrip()` on character lists. -/
def stripRightList (l : List Char) : List Char := (l.reverse.dropWhile pyIsSpace).reverse

/-- Python `str.strip()`: whitespace removed from both ends. -/
def pyStrip (s : String) : String := ⟨stripRightList (stripLeftList s.data)⟩

/-- Python `str.lower()` (ASCII case folding). -/
def pyLower (s : String) : String := ⟨s.data.map Char.toLower⟩

/-- Boolean test for `l₁ <+: l₂` on character lists. -/
def isPre : List Char → List Char → Bool
  | [], _ => true
  | _ :: _, [] => false
  | a :: xs, b :: ys => a = b && isPre xs ys

/-- Python `needle in hay`: contiguous-substring test, on character lists. -/
def containsSub (needle : List Char) : List Char → Bool
  | [] => needle.isEmpty
  | c :: rest => isPre needle (c :: rest) || containsSub needle rest

/-- decimal digit character, used to render numbers the way Python `str` does. -/
def digitChar : Nat → Char
  | 0 => '0' | 1 => '1' | 2 => '2' | 3 => '3' | 4 => '4'
  | 5 => '5' | 6 => '6' | 7 => '7' | 8 => '8' | 9 => '9'
  | _ => '*'

/-- accumulator loop for decimal rendering of a natural number; the first
argument is fuel, always called with at least the number itself so the
fallback case is never reached. -/
def natReprAux : Nat → Nat → List Char → List Char
  | 0, n, acc => digitChar (n % 10) :: acc
  | fuel + 1, n, acc =>
    if n < 10 then digitChar n :: acc
    else natReprAux fuel (n / 10) (digitChar (n % 10) :: acc)

/-- Python `str(n)` for a natural number. -/
def natRepr (n : Nat) : String := ⟨natReprAux n n []⟩

/-- Python `str(n)` for an integer. -/
def intRepr (n : Int) : String :=
  if n < 0 then "-" ++ natRepr n.natAbs else natRepr n.natAbs

/-- Python `text.split('\n')` on character lists: always at least one piece. -/
def splitNLAux : List Char → List (List Char)
  | [] => [[]]
  | c :: rest =>
    if c = '\n' then [] :: splitNLAux rest
    else
      match splitNLAux rest with
      | h :: t => (c :: h) :: t
      | [] => [[c]]

/-- Python `text.split('\n')`. -/
def pySplitNL (s : String) : List String := (splitNLAux s.data).map (fun l => ⟨l⟩)

/-- Python `'\n'.join` on character lists. -/
def joinNLAux : List (List Char) → List Char
  | [] => []
  | [x] => x
  | x :: y :: rest => x ++ '\n' :: joinNLAux (y :: rest)

/-- Python `'\n'.join(xs)`. -/
def pyJoinNL (xs : List String) : String := ⟨joinNLAux (xs.map String.data)⟩

/-- Python `os.path.basename`: the part after the last `/`. -/
def basename (s : String) : String :=
  ⟨(s.data.reverse.takeWhile (fun c => c ≠ '/')).reverse⟩

/-- Python runtime values, as far as the converter inspects them. -/
inductive PyVal where
  | none
  | bool (b : Bool)
  | int (n : Int)
  | str (s : String)
  | list (xs : List PyVal)
  | dict (entries : List (String × PyVal))

/-- Python truthiness (`bool(v)`). -/
def truthy : PyVal → Bool
  | .none => false
  | .bool b => b
  | .int n => n ≠ 0
  | .str s => s ≠ ""
  | .list xs => !xs.isEmpty
  | .dict d => !d.isEmpty

/-- lookup of a key in a dict's entry list (first match). -/
def dictFind : List (String × PyVal) → String → Option PyVal
  | [], _ => Option.none
  | (k', v) :: rest, k => if k' = k then some v else dictFind rest k

/-- Python `v.get(key, default)`; on a non-`dict` value (an `AttributeError`
in Python) the default is returned. -/
def vGet (v : PyVal) (k : String) (default : PyVal) : PyVal :=
  match v with
  | .dict entries => (dictFind entries k).getD default
  | _ => default

/-- Python `key in v` for a dict. -/
def hasKey (v : PyVal) (k : String) : Bool :=
  match v with
  | .dict entries => (dictFind entries k).isSome
  | _ => false

/-- Python `v is None`. -/
def isNone : PyVal → Bool
  | .none => true
  | _ => false

/-- Python `v == s` against a string literal. -/
def isStrEq (v : PyVal) (s : String) : Bool :=
  match v with
  | .str s' => s' = s
  | _ => false

/-- string payload of a value; non-strings (a `TypeError` in Python where a
string is required) read as `""`. -/
def strOrEmpty : PyVal → String
  | .str s => s
  | _ => ""

/-- list payload of a value; iterating a non-list raises in Python. -/
def listOf : PyVal → List PyVal
  | .list xs => xs
  | _ => []

/-- whether the value is a Python dict (`isinstance(v, dict)`). -/
def isDict : PyVal → Bool
  | .dict _ => true
  | _ => false

mutual

/-- Python `str(v)` / f-string interpolation of a value. -/
def fstr : PyVal → String
  | .none => "None"
  | .bool b => if b then "True" else "False"
  | .int n => intRepr n
  | .str s => s
  | .list xs => "[" ++ String.intercalate ", " (fstrList xs) ++ "]"
  | .dict es => "\x7b" ++ String.intercalate ", " (fstrEntries es) ++ "\x7d"

/-- elements of a list rendered as Python does inside a container (strings
carry quotes there). -/
def fstrList : List PyVal → List String
  | [] => []
  | .str s :: rest => ("\x27" ++ s ++ "\x27") :: fstrList rest
  | v :: rest => fstr v :: fstrList rest

/-- entries of a dict rendered as Python does inside a container. -/
def fstrEntries : List (String × PyVal) → List String
  | [] => []
  | (k, .str s) :: rest => ("\x27" ++ k ++ "\x27: \x27" ++ s ++ "\x27") :: fstrEntries rest
  | (k, v) :: rest => ("\x27" ++ k ++ "\x27: " ++ fstr v) :: fstrEntries rest

end

/-- `format_inline_reference` from the source: format an `inlineReference`
response item as markdown.  `rel` is the external `to_relative_path`
collaborator. -/
def format_inline_reference (rel : String → String) (resp : PyVal) : String :=
  let name := vGet resp "name" (.str "")
  let inner := vGet resp "inlineReference" (.dict [])
  match inner with
  | .dict innerEntries =>
    if (dictFind innerEntries "kind").isSome then
      let symbolName := (dictFind innerEntries "name").getD name
      let location := (dictFind innerEntries "location").getD (.dict [])
      let fromLocation : Option String :=
        if truthy location then
          let uri := vGet location "uri" (.dict [])
          let path := vGet uri "path" (.str "")
          let rangeInfo := vGet location "range" (.dict [])
          let line := vGet rangeInfo "startLineNumber" (.str "")
          if truthy path && truthy line then
            some ("`" ++ fstr symbolName ++ "` ([" ++ basename (strOrEmpty path) ++ ":" ++
              fstr line ++ "](" ++ rel (strOrEmpty path) ++ "#L" ++ fstr line ++ "))")
          else if truthy path then
            some ("`" ++ fstr symbolName ++ "` ([" ++ basename (strOrEmpty path) ++ "](" ++
              rel (strOrEmpty path) ++ "))")
          else Option.none
        else Option.none
      match fromLocation with
      | some s => s
      | Option.none => if truthy symbolName then "`" ++ fstr symbolName ++ "`" else ""
    else
      let path := vGet (.dict innerEntries) "path" (.str "")
      if truthy path then
        let displayName := if truthy name then fstr name else basename (strOrEmpty path)
        "[" ++ displayName ++ "](" ++ rel (strOrEmpty path) ++ ")"
      else if truthy name then "`" ++ fstr name ++ "`" else ""
  | _ => if truthy name then "`" ++ fstr name ++ "`" else ""

/-- inline-reference formatting as the specification states it (spec §4.1a /
claim C7), written from the priority rules: a non-structured nested object
gives an inline code span of the display name (empty if no name); a nested
object with a `kind` field gives a code span of the symbol name (falling back
to the display name) followed by a `basename:line` link when both path and
start line are present, a `basename` link when only a path is present, and
nothing more when neither is; otherwise a file reference gives a link
labelled by the name (else the path's basename) when a path is present, and a
bare code span of the name when not. -/
def format_inline_reference_spec (rel : String → String) (resp : PyVal) : String :=
  let name := vGet resp "name" (.str "")
  let inner := vGet resp "inlineReference" (.dict [])
  if !isDict inner then
    if truthy name then "`" ++ fstr name ++ "`" else ""
  else if hasKey inner "kind" then
    let symbolName := vGet inner "name" name
    let path := vGet (vGet (vGet inner "location" (.dict [])) "uri" (.dict [])) "path" (.str "")
    let line :=
      vGet (vGet (vGet inner "location" (.dict [])) "range" (.dict [])) "startLineNumber" (.str "")
    if truthy path && truthy line then
      "`" ++ fstr symbolName ++ "` ([" ++ basename (strOrEmpty path) ++ ":" ++ fstr line ++
        "](" ++ rel (strOrEmpty path) ++ "#L" ++ fstr line ++ "))"
    else if truthy path then
      "`" ++ fstr symbolName ++ "` ([" ++ basename (strOrEmpty path) ++ "](" ++
        rel (strOrEmpty path) ++ "))"
    else if truthy symbolName then "`" ++ fstr symbolName ++ "`" else ""
  else
    let path := vGet inner "path" (.str "")
    if truthy path then
      "[" ++ (if truthy name then fstr name else basename (strOrEmpty path)) ++ "](" ++
        rel (strOrEmpty path) ++ ")"
    else if truthy name then "`" ++ fstr name ++ "`" else ""

/-- classifier output unit: the `(type, content)` tuples that
`process_response_stream` builds. -/
inductive Segment where
  | text (s : String)
  | thinking (resp : PyVal)
  | prepareToolInvocation (resp : PyVal)
  | toolInvocationSerialized (resp : PyVal)
  | codeblockUri (resp : PyVal)
  | textEditGroup (resp : PyVal)

/-- whether a segment is a `Text` segment. -/
def Segment.isText : Segment → Bool
  | .text _ => true
  | _ => false

/-- whether a segment is a `CodeblockUri` segment. -/
def Segment.isCodeblockUri : Segment → Bool
  | .codeblockUri _ => true
  | _ => false

/-- whether a segment is a `TextEditGroup` segment. -/
def Segment.isTextEditGroup : Segment → Bool
  | .textEditGroup _ => true
  | _ => false

/-- Python `''.join(current_text)`. -/
def pyJoin : List String → String
  | [] => ""
  | s :: rest => s ++ pyJoin rest

/-- flush of the pending-text buffer: one `Text` segment if non-empty. -/
def flushText (current : List String) : List Segment :=
  if current.isEmpty then [] else [Segment.text (pyJoin current)]

/-- classifier kind test: plain text fragment (`no kind with a value, or
kind='text'`). -/
def isTextKind (resp : PyVal) : Bool :=
  (isNone (vGet resp "kind" .none) && hasKey resp "value") || isStrEq (vGet resp "kind" .none) "text"

/-- classifier kind test: one of the six explicitly ignored kinds. -/
def isIgnoredKind (resp : PyVal) : Bool :=
  isStrEq (vGet resp "kind" .none) "mcpServersStarting" ||
  isStrEq (vGet resp "kind" .none) "undoStop" ||
  isStrEq (vGet resp "kind" .none) "progressTaskSerialized" ||
  isStrEq (vGet resp "kind" .none) "elicitationSerialized" ||
  isStrEq (vGet resp "kind" .none) "confirmation" ||
  isStrEq (vGet resp "kind" .none) "agent"

/-- main loop of `process_response_stream`, with the pending-text buffer
(`current_text`) made explicit. -/
def processLoop (rel : String → String) : List PyVal → List String → List Segment
  | [], current => flushText current
  | resp :: rest, current =>
    let kind := vGet resp "kind" .none
    let value := vGet resp "value" (.str "")
    if (isNone kind && hasKey resp "value") || isStrEq kind "text" then
      let stripped := pyStrip (strOrEmpty value)
      if stripped = "```" ∨ stripped = "" then
        processLoop rel rest current
      else
        processLoop rel rest (current ++ [strOrEmpty value])
    else if isStrEq kind "inlineReference" then
      processLoop rel rest (current ++ [format_inline_reference rel resp])
    else if isStrEq kind "thinking" then
      flushText current ++ (if truthy value then [Segment.thinking resp] else []) ++
        processLoop rel rest []
    else if isStrEq kind "prepareToolInvocation" then
      flushText current ++ [Segment.prepareToolInvocation resp] ++ processLoop rel rest []
    else if isStrEq kind "toolInvocationSerialized" then
      flushText current ++ [Segment.toolInvocationSerialized resp] ++ processLoop rel rest []
    else if isStrEq kind "codeblockUri" then
      flushText current ++ [Segment.codeblockUri resp] ++ processLoop rel rest []
    else if isStrEq kind "textEditGroup" then
      flushText current ++ [Segment.textEditGroup resp] ++ processLoop rel rest []
    else if isStrEq kind "mcpServersStarting" || isStrEq kind "undoStop" ||
        isStrEq kind "progressTaskSerialized" || isStrEq kind "elicitationSerialized" ||
        isStrEq kind "confirmation" || isStrEq kind "agent" then
      processLoop rel rest current
    else
      if truthy value then processLoop rel rest (current ++ [strOrEmpty value])
      else processLoop rel rest current

/-- `process_response_stream` from the source: classify a response stream into
segments. -/
def process_response_stream (rel : String → String) (responses : List PyVal) : List Segment :=
  processLoop rel responses []

/-- classifier kind test: one of the five segment-emitting (buffer-flushing)
kinds. -/
def isFlushKind (resp : PyVal) : Bool :=
  isStrEq (vGet resp "kind" .none) "thinking" ||
  isStrEq (vGet resp "kind" .none) "prepareToolInvocation" ||
  isStrEq (vGet resp "kind" .none) "toolInvocationSerialized" ||
  isStrEq (vGet resp "kind" .none) "codeblockUri" ||
  isStrEq (vGet resp "kind" .none) "textEditGroup"

/-- the raw `value` string of an event (`resp.get('value', '')`). -/
def keptValue (resp : PyVal) : String := strOrEmpty (vGet resp "value" (.str ""))

/-- whether a plain-text event's value passes the classifier's filter
(trimmed value neither empty nor a lone code-fence marker). -/
def survivesFilter (resp : PyVal) : Bool :=
  !(pyStrip (keptValue resp) = "```" ∨ pyStrip (keptValue resp) = "")

/-- the segments a single buffer-flushing event appends after the flush:
one segment carrying the payload, except a `thinking` event with a falsy
value, which appends nothing. -/
def emitSegment (resp : PyVal) : List Segment :=
  if isStrEq (vGet resp "kind" .none) "thinking" then
    if truthy (vGet resp "value" (.str "")) then [Segment.thinking resp] else []
  else if isStrEq (vGet resp "kind" .none) "prepareToolInvocation" then
    [Segment.prepareToolInvocation resp]
  else if isStrEq (vGet resp "kind" .none) "toolInvocationSerialized" then
    [Segment.toolInvocationSerialized resp]
  else if isStrEq (vGet resp "kind" .none) "codeblockUri" then
    [Segment.codeblockUri resp]
  else if isStrEq (vGet resp "kind" .none) "textEditGroup" then
    [Segment.textEditGroup resp]
  else []

/-- no two adjacent `Text` segments. -/
def noAdjacentText : List Segment → Bool
  | [] => true
  | [_] => true
  | a :: b :: rest => !(a.isText && b.isText) && noAdjacentText (b :: rest)

/-- every `Text` segment in the list is non-empty after whitespace trimming. -/
def textsTrimNonempty (segs : List Segment) : Prop :=
  ∀ s : String, Segment.text s ∈ segs → pyStrip s ≠ ""

/-- identity path relativization, used for concrete inputs (the external
collaborator returns paths unchanged when no project root is detected). -/
def idRel : String → String := fun s => s

/-- a `thinking` event carrying an empty value. -/
def thinkingEmptyEvent : PyVal :=
  .dict [("kind", .str "thinking"), ("value", .str "")]

/-- the literal continuation marker recognised by `is_continue_message`. -/
def continueMarker : String := "@agent Continue: \"Continue to iterate?\""

/-- `is_continue_message` from the source. -/
def is_continue_message (text : String) : Bool :=
  if text = "" then false
  else
    let t := pyStrip text
    if pyLower t = "continue" then true
    else if containsSub continueMarker.data t.data then true
    else false

/-- `truncate_output` from the source (the source declares default arguments
`head_lines=5, tail_lines=5`; callers use the defaults). -/
def truncate_output (text : String) (head_lines tail_lines : Nat) : String :=
  let lines := pySplitNL text
  let total_lines := lines.length
  if total_lines ≤ head_lines + tail_lines + 2 then text
  else
    let headL := lines.take head_lines
    let tailL := if 0 < tail_lines then lines.drop (total_lines - tail_lines) else []
    let omitted := total_lines - head_lines - tail_lines
    pyJoinNL (headL ++ ["\n... (" ++ natRepr omitted ++ " lines omitted) ...\n"] ++ tailL)

/-- Python `s.startswith(p)`. -/
def pyStartsWith (s p : String) : Bool := isPre p.data s.data

/-- Python `s.endswith(p)`. -/
def pyEndsWith (s p : String) : Bool := isPre p.data.reverse s.data.reverse

/-- Python `s[2:-2]`. -/
def slice2 (s : String) : String :=
  ⟨(s.data.drop 2).take ((s.data.drop 2).length - 2)⟩

/-- rendering configuration (`config` dict built in `process_chat_json`). -/
structure RConfig where
  no_edit_patch : Bool
  full_terminal : Bool
  html_style : Bool

/-- title derived from one buffered thinking item inside
`flush_thinking_buffer`: its `generatedTitle`, else a bold leading line of its
value. -/
def titleOf (item : PyVal) : String :=
  let t := strOrEmpty (vGet item "generatedTitle" (.str ""))
  if t ≠ "" then t
  else
    let v := pyStrip (strOrEmpty (vGet item "value" (.str "")))
    match pySplitNL v with
    | [] => ""
    | l0 :: _ =>
      if pyStartsWith l0 "**" && pyEndsWith l0 "**" then pyStrip (slice2 l0) else ""

/-- the `for item in reversed(buffer)` search for the main summary title. -/
def findTitle : List PyVal → String
  | [] => ""
  | item :: rest =>
    let t := titleOf item
    if t ≠ "" then t else findTitle rest

/-- one buffered thinking item's rendered section inside
`flush_thinking_buffer` (`None` when the item contributes nothing). -/
def sectionText (cfg : RConfig) (item : PyVal) : Option String :=
  let val := pyStrip (strOrEmpty (vGet item "value" (.str "")))
  let itemTitle := strOrEmpty (vGet item "generatedTitle" (.str ""))
  if val = "" then Option.none
  else
    let lines := pySplitNL val
    let firstLine := pyStrip (lines.headD "")
    let headerLines : String × List String :=
      if pyStartsWith firstLine "**" && pyEndsWith firstLine "**" then
        (pyStrip (slice2 firstLine), lines.drop 1)
      else if itemTitle ≠ "" then (itemTitle, lines)
      else ("", lines)
    let sectionHeader := headerLines.1
    let clean1 := headerLines.2
    let clean2 :=
      if !clean1.isEmpty && sectionHeader ≠ "" &&
          (pyStrip (clean1.headD "") = sectionHeader ||
           pyStrip (clean1.headD "") = "**" ++ sectionHeader ++ "**") then
        clean1.drop 1
      else clean1
    let clean3 := clean2.dropWhile (fun l => pyStrip l = "")
    let clean4 := (clean3.reverse.dropWhile (fun l => pyStrip l = "")).reverse
    let quotedBody := String.intercalate "\n" clean4
    let s :=
      if cfg.html_style then
        (if sectionHeader ≠ "" then "> **" ++ sectionHeader ++ "**\n>\n" else "") ++
        (if quotedBody ≠ "" then "> " ++ String.intercalate "\n> " clean4 else "")
      else
        (if sectionHeader ≠ "" then "**" ++ sectionHeader ++ "**\n\n" else "") ++ quotedBody
    if s = "" then Option.none else some s

/-- `flush_thinking_buffer` from the source, as the string it writes. -/
def flushThinking (cfg : RConfig) (buffer : List PyVal) : String :=
  if buffer.isEmpty then ""
  else
    let t := findTitle buffer.reverse
    let mainTitle := if t = "" then "Thinking Process" else t
    let bodyParts := buffer.filterMap (sectionText cfg)
    if bodyParts.isEmpty then ""
    else if cfg.html_style then
      "\n<details>\n<summary>" ++ mainTitle ++ "</summary>\n\n" ++
        String.intercalate "\n>\n" bodyParts ++ "\n\n</details>\n\n"
    else
      "\n```thinking\n" ++ String.intercalate "\n\n" bodyParts ++ "\n```\n\n"

/-- the `display_path = locals().get('last_edit_path', 'Code Block')` read:
`Option.none` models a never-assigned variable, `some v` an assigned Python
value (which is `None` right after a text-edit group consumed it). -/
def editLabel (lastEdit : Option PyVal) : String :=
  fstr (lastEdit.getD (.str "Code Block"))

/-- concatenated edit fragments of a `textEditGroup` payload. -/
def editsText (content : PyVal) : String :=
  String.join ((listOf (vGet content "edits" (.list []))).map (fun eg =>
    match eg with
    | .list edits => String.join (edits.map (fun e => fstr (vGet e "text" (.str "")) ++ "\n"))
    | _ => ""))

/-- the text written for a `textEditGroup` segment. -/
def tegWrite (cfg : RConfig) (lastEdit : Option PyVal) (content : PyVal) : String :=
  let displayPath := editLabel lastEdit
  if !cfg.no_edit_patch then
    if cfg.html_style then
      "\n<details>\n<summary>Editing File: <code>" ++ displayPath ++ "</code></summary>\n\n" ++
        "```cpp\n" ++ editsText content ++ "```\n\n</details>\n\n"
    else
      "**Editing File:** `" ++ displayPath ++ "`\n\n" ++
        "```cpp\n" ++ editsText content ++ "```\n\n"
  else
    "> **Editing File:** `" ++ displayPath ++ "`\n\n"

/-- the value assigned to `last_edit_path` by a `codeblockUri` segment. -/
def cbNewEditPath (rel : String → String) (content : PyVal) : PyVal :=
  let path := vGet (vGet content "uri" (.dict [])) "path" (.str "")
  if truthy path then .str (rel (strOrEmpty path)) else .str "Unknown File"

/-- the renderer's per-turn segment loop, producing the written text and the
final `last_edit_path` slot.  The thinking buffer and the pending tool name
are the loop's other two state variables; `toolOut` abstracts the text written
by the `toolInvocationSerialized` branch (regex-based message cleaning,
timestamps, terminal and todo payloads), which reads the configuration, the
pending tool name and the payload and touches no other state. -/
def segsLoop (cfg : RConfig) (rel stripAnsi : String → String)
    (toolOut : RConfig → PyVal → PyVal → String) :
    List Segment → List PyVal → PyVal → Option PyVal → String × Option PyVal
  | [], buf, _, lastEdit => (flushThinking cfg buf, lastEdit)
  | Segment.thinking p :: rest, buf, lastTool, lastEdit =>
    segsLoop cfg rel stripAnsi toolOut rest (buf ++ [p]) lastTool lastEdit
  | Segment.text s :: rest, buf, lastTool, lastEdit =>
    let cleaned := stripAnsi s
    let w := if pyStrip cleaned ≠ "" then cleaned ++ "\n\n" else ""
    let r := segsLoop cfg rel stripAnsi toolOut rest [] lastTool lastEdit
    (flushThinking cfg buf ++ w ++ r.1, r.2)
  | Segment.prepareToolInvocation p :: rest, buf, _, lastEdit =>
    let r := segsLoop cfg rel stripAnsi toolOut rest [] (vGet p "toolName" .none) lastEdit
    (flushThinking cfg buf ++ r.1, r.2)
  | Segment.toolInvocationSerialized p :: rest, buf, lastTool, lastEdit =>
    let w := toolOut cfg lastTool p
    let r := segsLoop cfg rel stripAnsi toolOut rest [] .none lastEdit
    (flushThinking cfg buf ++ w ++ r.1, r.2)
  | Segment.codeblockUri p :: rest, buf, lastTool, _ =>
    let r := segsLoop cfg rel stripAnsi toolOut rest [] lastTool (some (cbNewEditPath rel p))
    (flushThinking cfg buf ++ r.1, r.2)
  | Segment.textEditGroup p :: rest, buf, lastTool, lastEdit =>
    let w := tegWrite cfg lastEdit p
    let r := segsLoop cfg rel stripAnsi toolOut rest [] lastTool (some PyVal.none)
    (flushThinking cfg buf ++ w ++ r.1, r.2)

/-- one turn's rendered block (turn header, user section, assistant section,
trailing rule) and the outgoing `last_edit_path` slot. -/
def renderTurnS (cfg : RConfig) (rel stripAnsi : String → String)
    (toolOut : RConfig → PyVal → PyVal → String) (lastEdit : Option PyVal)
    (turn : Nat × PyVal) : String × Option PyVal :=
  let req := turn.2
  let segs := process_response_stream rel (listOf (vGet req "response" (.list [])))
  let body := segsLoop cfg rel stripAnsi toolOut segs [] .none lastEdit
  ("# Turn " ++ natRepr turn.1 ++ "\n\n" ++ "## User\n\n" ++
     fstr (vGet (vGet req "message" (.dict [])) "text" (.str "")) ++ "\n\n" ++
     "## Assistant\n\n" ++ body.1 ++ "---\n\n", body.2)

/-- the `'='*40` separator written before every turn but the first. -/
def hrSep : String := "\n" ++ String.mk (List.replicate 40 '=') ++ "\n\n"

/-- the renderer's turn loop over one group, threading `last_edit_path`. -/
def renderTurnsS (cfg : RConfig) (rel stripAnsi : String → String)
    (toolOut : RConfig → PyVal → PyVal → String) :
    Bool → Option PyVal → List (Nat × PyVal) → String × Option PyVal
  | _, lastEdit, [] => ("", lastEdit)
  | firstTurn, lastEdit, t :: rest =>
    let r1 := renderTurnS cfg rel stripAnsi toolOut lastEdit t
    let r2 := renderTurnsS cfg rel stripAnsi toolOut false r1.2 rest
    ((if firstTurn then "" else hrSep) ++ r1.1 ++ r2.1, r2.2)

/-- the user message text of one request (`req.get('message',{}).get('text','')`). -/
def userMessage (req : PyVal) : String :=
  strOrEmpty (vGet (vGet req "message" (.dict [])) "text" (.str ""))

/-- the grouping loop of `process_chat_json` over 1-based-numbered requests. -/
def groupLoop : List (Nat × PyVal) → List (Nat × PyVal) → List (List (Nat × PyVal))
  | [], current => if current.isEmpty then [] else [current]
  | t :: rest, current =>
    if current.isEmpty then groupLoop rest [t]
    else if is_continue_message (userMessage t.2) then groupLoop rest (current ++ [t])
    else current :: groupLoop rest [t]

/-- grouping of the request sequence into continuation groups. -/
def groupRequests (requests : List PyVal) : List (List (Nat × PyVal)) :=
  groupLoop (requests.enumFrom 1) []

/-- `output_path.rsplit('.', 1)[0]`. -/
def outputBase (output_path : String) : String :=
  let revAfter := output_path.data.reverse.takeWhile (fun c => c ≠ '.')
  if revAfter.length = output_path.data.length then output_path
  else ⟨(output_path.data.reverse.drop (revAfter.length + 1)).reverse⟩

/-- the output extension: `'.' + rsplit[1]` when the basename has a dot, else
`.md`. -/
def outputExt (output_path : String) : String :=
  if (basename output_path).data.contains '.' then
    ⟨'.' :: (output_path.data.reverse.takeWhile (fun c => c ≠ '.')).reverse⟩
  else ".md"

/-- one group's output filename (`{base}_turn_{range}{ext}`). -/
def turnFileName (base ext : String) (group : List (Nat × PyVal)) : String :=
  base ++ "_turn_" ++ String.intercalate "-" (group.map (fun t => natRepr t.1)) ++ ext

/-- the per-group output loop, threading `last_edit_path` across groups
(the variable is function-scoped in the source). -/
def groupsLoop (cfg : RConfig) (rel stripAnsi : String → String)
    (toolOut : RConfig → PyVal → PyVal → String) (base ext : String) :
    Option PyVal → List (List (Nat × PyVal)) → List (String × String)
  | _, [] => []
  | lastEdit, g :: gs =>
    let r := renderTurnsS cfg rel stripAnsi toolOut true lastEdit g
    (turnFileName base ext g, r.1) :: groupsLoop cfg rel stripAnsi toolOut base ext r.2 gs

/-- outcome of one conversion: the diagnostic printed for an empty input, and
the turn files written (name, content). -/
structure ConvResult where
  message : Option String
  files : List (String × String)

/-- core of `process_chat_json` after the JSON document has been read.
Directory creation, project-root detection and the session/archive bookkeeping
are filesystem side operations outside the embedding; the per-group turn files
and the no-requests diagnostic are modelled. -/
def process_chat_json (cfg : RConfig) (rel stripAnsi : String → String)
    (toolOut : RConfig → PyVal → PyVal → String) (output_path : String)
    (data : PyVal) : ConvResult :=
  let base := outputBase output_path
  let ext := outputExt output_path
  let requests := vGet data "requests" (.list [])
  if !truthy requests then
    { message := some "No requests found in JSON file", files := [] }
  else
    { message := Option.none,
      files := groupsLoop cfg rel stripAnsi toolOut base ext Option.none
        (groupRequests (listOf requests)) }

/-- a list of per-turn blocks joined with the inter-turn separator: the first
block, then each later block preceded by `hrSep`. -/
def sepJoinHr (blocks : List String) : String :=
  match blocks with
  | [] => ""
  | b :: rest => b ++ pyJoin (rest.map (fun x => hrSep ++ x))

/-! ### Basic lemmas about the string helpers -/

theorem isStrEq_true_iff (v : PyVal) (s : String) : isStrEq v s = true ↔ v = .str s := by
  cases v <;> simp [isStrEq]

theorem data_pyJoin (xs : List String) : (pyJoin xs).data = (xs.map String.data).flatten := by
  induction xs with
  | nil => rfl
  | cons s rest ih => simp [pyJoin, ih]

theorem all_of_dropWhile_all {p : Char → Bool} {l : List Char}
    (h : ∀ c ∈ l.dropWhile p, p c = true) : ∀ c ∈ l, p c = true := by
  intro c hc
  rw [← List.takeWhile_append_dropWhile (p := p) (l := l)] at hc
  rcases List.mem_append.mp hc with h1 | h2
  · exact List.mem_takeWhile_imp h1
  · exact h c h2

theorem pyStrip_eq_empty_iff (s : String) :
    pyStrip s = "" ↔ ∀ c ∈ s.data, pyIsSpace c = true := by
  have h1 : pyStrip s = "" ↔ stripRightList (stripLeftList s.data) = [] := by
    constructor
    · intro h; exact congrArg String.data h
    · intro h; show String.mk _ = ""; rw [h]
  rw [h1]
  unfold stripRightList stripLeftList
  rw [List.reverse_eq_nil_iff, List.dropWhile_eq_nil_iff]
  simp only [List.mem_reverse]
  constructor
  · exact fun h => all_of_dropWhile_all h
  · exact fun h c hc => h c ((List.dropWhile_suffix pyIsSpace).sublist.subset hc)

theorem pyStrip_pyJoin_ne_empty {xs : List String} (hne : xs ≠ [])
    (h : ∀ s ∈ xs, pyStrip s ≠ "") : pyStrip (pyJoin xs) ≠ "" := by
  obtain ⟨s, hs⟩ : ∃ s, s ∈ xs := by
    cases xs with
    | nil => exact absurd rfl hne
    | cons a t => exact ⟨a, List.mem_cons_self a t⟩
  have hsne := h s hs
  intro hall
  rw [pyStrip_eq_empty_iff] at hall
  apply hsne
  rw [pyStrip_eq_empty_iff]
  intro c hc
  apply hall
  rw [data_pyJoin]
  exact List.mem_flatten_of_mem (List.mem_map_of_mem String.data hs) hc

theorem isText_text (s : String) : (Segment.text s).isText = true := rfl

theorem isText_thinking (p : PyVal) : (Segment.thinking p).isText = false := rfl

/-! ### Classifier lemmas -/

theorem noAdjacentText_cons {a : Segment} {L : List Segment} (ha : a.isText = false)
    (hL : noAdjacentText L = true) : noAdjacentText (a :: L) = true := by
  cases L with
  | nil => rfl
  | cons b rest => simp only [noAdjacentText, ha, Bool.false_and, Bool.not_false,
      Bool.true_and]; exact hL

theorem noAdjacentText_textCons {j : String} {a : Segment} {L : List Segment}
    (ha : a.isText = false) (hL : noAdjacentText (a :: L) = true) :
    noAdjacentText (Segment.text j :: a :: L) = true := by
  simp only [noAdjacentText, isText_text, ha, Bool.and_false, Bool.not_false, Bool.true_and]
  exact hL

/-- one unfolding step of the classifier loop at a buffer-flushing event:
flush the pending text, then append the event's own segment (none for a
falsy-valued `thinking` event), then continue with an empty buffer. -/
theorem processLoop_flush_step (rel : String → String) (e : PyVal) (rest : List PyVal)
    (buf : List String) (he : isFlushKind e = true) :
    processLoop rel (e :: rest) buf =
      flushText buf ++ emitSegment e ++ processLoop rel rest [] := by
  unfold isFlushKind at he
  simp only [Bool.or_eq_true, isStrEq_true_iff] at he
  rcases he with (((h | h) | h) | h) | h <;>
    simp [processLoop, emitSegment, h, isStrEq, isNone]

/-- the classifier on a stream of only plain-text and ignored events:
everything reduces to one flush of the surviving raw values appended to the
incoming buffer. -/
theorem processLoop_text_only (rel : String → String) :
    ∀ (events : List PyVal) (buf : List String),
    (∀ e ∈ events, isTextKind e = true ∨ isIgnoredKind e = true) →
    processLoop rel events buf =
      flushText (buf ++ (events.filter (fun e => isTextKind e && survivesFilter e)).map keptValue) := by
  intro events
  induction events with
  | nil => intro buf _; simp [processLoop]
  | cons e rest ih =>
    intro buf h
    have hrest : ∀ x ∈ rest, isTextKind x = true ∨ isIgnoredKind x = true :=
      fun x hx => h x (List.mem_cons_of_mem e hx)
    rcases h e (List.mem_cons_self e rest) with ht | hi
    · have hcond := ht
      unfold isTextKind at hcond
      by_cases hs : pyStrip (strOrEmpty (vGet e "value" (.str ""))) = "```" ∨
          pyStrip (strOrEmpty (vGet e "value" (.str ""))) = ""
      · have hsf : survivesFilter e = false := by
          simp [survivesFilter, keptValue, hs]
        simp only [processLoop, hcond, if_true, if_pos hs]
        rw [ih buf hrest]
        simp [List.filter_cons, hsf]
      · have hsf : survivesFilter e = true := by
          simp only [survivesFilter, keptValue]
          simp [hs]
        simp only [processLoop, hcond, if_true, if_neg hs]
        rw [ih (buf ++ [strOrEmpty (vGet e "value" (.str ""))]) hrest]
        simp [List.filter_cons, hsf, ht, keptValue]
    · unfold isIgnoredKind at hi
      simp only [Bool.or_eq_true, isStrEq_true_iff] at hi
      rcases hi with ((((h' | h') | h') | h') | h') | h'
      all_goals {
        have h2 : isTextKind e = false := by simp [isTextKind, h', isStrEq, isNone]
        rw [show processLoop rel (e :: rest) buf = processLoop rel rest buf from by
          simp [processLoop, h', isStrEq, isNone]]
        rw [ih buf hrest]
        simp [List.filter_cons, h2]
      }

/-- invariant preservation for the classifier loop: with no inline-reference,
no unknown-kind and no falsy-valued thinking events, the output never has two
adjacent `Text` segments and every `Text` segment trims non-empty, provided
every buffer entry trims non-empty. -/
theorem processLoop_invariant (rel : String → String) :
    ∀ (events : List PyVal) (buf : List String),
    (∀ e ∈ events, isTextKind e = true ∨ isIgnoredKind e = true ∨ isFlushKind e = true) →
    (∀ e ∈ events, isStrEq (vGet e "kind" .none) "thinking" = true →
      truthy (vGet e "value" (.str "")) = true) →
    (∀ s ∈ buf, pyStrip s ≠ "") →
    noAdjacentText (processLoop rel events buf) = true ∧
      textsTrimNonempty (processLoop rel events buf) := by
  intro events
  induction events with
  | nil =>
    intro buf _ _ hbuf
    show noAdjacentText (flushText buf) = true ∧ textsTrimNonempty (flushText buf)
    cases buf with
    | nil => exact ⟨rfl, fun s hs => absurd hs (List.not_mem_nil _)⟩
    | cons b t =>
      refine ⟨rfl, fun s hs => ?_⟩
      have : s = pyJoin (b :: t) := by
        simp only [flushText, List.isEmpty_cons, if_false] at hs
        simpa [Segment.text.injEq] using hs
      rw [this]
      exact pyStrip_pyJoin_ne_empty (List.cons_ne_nil b t) hbuf
  | cons e rest ih =>
    intro buf h1 h2 hbuf
    have h1rest : ∀ x ∈ rest, isTextKind x = true ∨ isIgnoredKind x = true ∨ isFlushKind x = true :=
      fun x hx => h1 x (List.mem_cons_of_mem e hx)
    have h2rest : ∀ x ∈ rest, isStrEq (vGet x "kind" .none) "thinking" = true →
        truthy (vGet x "value" (.str "")) = true :=
      fun x hx => h2 x (List.mem_cons_of_mem e hx)
    rcases h1 e (List.mem_cons_self e rest) with ht | hi | hf
    · -- plain-text event: buffer may grow, invariant on entries preserved
      have hcond := ht
      unfold isTextKind at hcond
      by_cases hs : pyStrip (strOrEmpty (vGet e "value" (.str ""))) = "```" ∨
          pyStrip (strOrEmpty (vGet e "value" (.str ""))) = ""
      · simp only [processLoop, hcond, if_true, if_pos hs]
        exact ih buf h1rest h2rest hbuf
      · simp only [processLoop, hcond, if_true, if_neg hs]
        refine ih (buf ++ [strOrEmpty (vGet e "value" (.str ""))]) h1rest h2rest ?_
        intro s hsmem
        rcases List.mem_append.mp hsmem with hm | hm
        · exact hbuf s hm
        · rw [List.mem_singleton.mp hm]
          intro hempty
          exact hs (Or.inr hempty)
    · -- ignored event: nothing changes
      unfold isIgnoredKind at hi
      simp only [Bool.or_eq_true, isStrEq_true_iff] at hi
      rcases hi with ((((h' | h') | h') | h') | h') | h'
      all_goals {
        rw [show processLoop rel (e :: rest) buf = processLoop rel rest buf from by
          simp [processLoop, h', isStrEq, isNone]]
        exact ih buf h1rest h2rest hbuf
      }
    · -- buffer-flushing event
      rw [processLoop_flush_step rel e rest buf hf]
      obtain ⟨hadjL, htxtL⟩ := ih [] h1rest h2rest (fun s hs => absurd hs (List.not_mem_nil _))
      have hemit : ∃ x : Segment, emitSegment e = [x] ∧ x.isText = false := by
        unfold isFlushKind at hf
        simp only [Bool.or_eq_true, isStrEq_true_iff] at hf
        rcases hf with (((h' | h') | h') | h') | h'
        · have := h2 e (List.mem_cons_self e rest) (by rw [isStrEq_true_iff]; exact h')
          exact ⟨Segment.thinking e, by simp [emitSegment, h', isStrEq, this], rfl⟩
        · exact ⟨Segment.prepareToolInvocation e, by simp [emitSegment, h', isStrEq], rfl⟩
        · exact ⟨Segment.toolInvocationSerialized e, by simp [emitSegment, h', isStrEq], rfl⟩
        · exact ⟨Segment.codeblockUri e, by simp [emitSegment, h', isStrEq], rfl⟩
        · exact ⟨Segment.textEditGroup e, by simp [emitSegment, h', isStrEq], rfl⟩
      obtain ⟨x, hx, hxtext⟩ := hemit
      rw [hx]
      cases buf with
      | nil =>
        constructor
        · simpa using noAdjacentText_cons hxtext hadjL
        · intro s hsmem
          simp only [flushText, List.isEmpty_nil, if_true, List.nil_append,
            List.cons_append, List.nil_append] at hsmem ⊢
          rcases List.mem_cons.mp hsmem with hm | hm
          · rw [← hm] at hxtext; simp [isText_text] at hxtext
          · exact htxtL s hm
      | cons b t =>
        have hflush : flushText (b :: t) = [Segment.text (pyJoin (b :: t))] := rfl
        rw [hflush]
        constructor
        · simpa using noAdjacentText_textCons hxtext (noAdjacentText_cons hxtext hadjL)
        · intro s hsmem
          simp only [List.cons_append, List.nil_append, List.mem_cons] at hsmem
          rcases hsmem with hm | hm | hm
          · have : s = pyJoin (b :: t) := by simpa [Segment.text.injEq] using hm
            rw [this]
            exact pyStrip_pyJoin_ne_empty (List.cons_ne_nil b t) hbuf
          · rw [← hm] at hxtext; simp [isText_text] at hxtext
          · exact htxtL s hm

/-! ### Claim theorems for the classifier -/

/-- C1 (amended): for every event sequence containing only plain/`text`-kind
events (with string-typed values) and ignored-kind events, classification
yields exactly one `Text` segment whose content equals the in-order
concatenation of the raw (untrimmed) values of those events whose trimmed
value is neither empty nor exactly the lone code-fence marker — provided at
least one event survives that filter; when no event survives, the classifier
yields no segment at all (not a `Text` segment with empty content). -/
theorem c1_text_only_single_text_segment (rel : String → String) (events : List PyVal)
    (hkinds : ∀ e ∈ events, isTextKind e = true ∨ isIgnoredKind e = true)
    (_hstr : ∀ e ∈ events, isTextKind e = true → ∃ s, vGet e "value" (.str "") = .str s) :
    process_response_stream rel events =
      (if ((events.filter (fun e => isTextKind e && survivesFilter e)).isEmpty) then
        ([] : List Segment)
       else
        [Segment.text
          (pyJoin ((events.filter (fun e => isTextKind e && survivesFilter e)).map keptValue))]) := by
  rw [process_response_stream, processLoop_text_only rel events [] hkinds, List.nil_append]
  cases hfil : events.filter (fun e => isTextKind e && survivesFilter e) with
  | nil => simp [flushText]
  | cons a t => simp [flushText]

/-- C1 counterexample: a stream consisting of one plain event whose value is a
lone code-fence marker contains only plain/ignored kinds, yet classification
yields no segment at all, not the one `Text` segment (with the empty
concatenation as content) that the claim requires. -/
theorem c1_cex_fence_only_stream_yields_no_segment :
    process_response_stream idRel [PyVal.dict [("value", PyVal.str "```")]] = [] ∧
      process_response_stream idRel [PyVal.dict [("value", PyVal.str "```")]] ≠
        [Segment.text ""] := by
  refine ⟨rfl, fun h => ?_⟩
  have h0 : process_response_stream idRel [PyVal.dict [("value", PyVal.str "```")]] = [] := rfl
  rw [h0] at h
  exact List.noConfusion h

/-- concrete three-event stream for the C1 witness. -/
def c1WitnessEvents : List PyVal :=
  [PyVal.dict [("value", PyVal.str "hello ")],
   PyVal.dict [("kind", PyVal.str "undoStop")],
   PyVal.dict [("kind", PyVal.str "text"), ("value", PyVal.str "world")]]

/-- witness for the C1 theorem at a concrete stream of two surviving text
events and one ignored event. -/
theorem c1_witness :
    process_response_stream idRel c1WitnessEvents = [Segment.text "hello world"] := by
  have h := c1_text_only_single_text_segment idRel c1WitnessEvents
    (by
      intro e he
      simp only [c1WitnessEvents, List.mem_cons, List.not_mem_nil, or_false] at he
      rcases he with rfl | rfl | rfl
      · exact Or.inl rfl
      · exact Or.inr rfl
      · exact Or.inl rfl)
    (by
      intro e he ht
      simp only [c1WitnessEvents, List.mem_cons, List.not_mem_nil, or_false] at he
      rcases he with rfl | rfl | rfl
      · exact ⟨"hello ", rfl⟩
      · exact absurd ht (by decide)
      · exact ⟨"world", rfl⟩)
  rw [h]
  rfl

/-- C2 (amended): restricted to event streams with no inline-reference
events, no unknown-kind events and no falsy-valued `thinking` events, the
classifier output never contains two adjacent `Text` segments and every
`Text` segment it contains is non-empty after whitespace trimming.  (An
empty-valued `thinking` event flushes the buffer without emitting a segment,
which can make two `Text` segments adjacent; an inline-reference or
unknown-kind event can push whitespace-only content into the buffer.) -/
theorem c2_no_adjacent_texts_and_texts_nonempty (rel : String → String) (events : List PyVal)
    (hkinds : ∀ e ∈ events, isTextKind e = true ∨ isIgnoredKind e = true ∨ isFlushKind e = true)
    (hthink : ∀ e ∈ events, isStrEq (vGet e "kind" .none) "thinking" = true →
      truthy (vGet e "value" (.str "")) = true) :
    noAdjacentText (process_response_stream rel events) = true ∧
      textsTrimNonempty (process_response_stream rel events) :=
  processLoop_invariant rel events [] hkinds hthink (fun _ hs => absurd hs (List.not_mem_nil _))

/-- C2 counterexample: around a `thinking` event with empty value the pending
text is flushed with no segment emitted in between, so the classifier output
contains two adjacent `Text` segments. -/
theorem c2_cex_adjacent_text_segments :
    process_response_stream idRel
        [PyVal.dict [("value", PyVal.str "a")], thinkingEmptyEvent,
         PyVal.dict [("value", PyVal.str "b")]] =
      [Segment.text "a", Segment.text "b"] ∧
    noAdjacentText
        (process_response_stream idRel
          [PyVal.dict [("value", PyVal.str "a")], thinkingEmptyEvent,
           PyVal.dict [("value", PyVal.str "b")]]) = false :=
  ⟨rfl, rfl⟩

/-- concrete two-event stream for the C2 witness. -/
def c2WitnessEvents : List PyVal :=
  [PyVal.dict [("value", PyVal.str " x ")],
   PyVal.dict [("kind", PyVal.str "thinking"), ("value", PyVal.str "deep")]]

/-- witness for the C2 theorem at a concrete stream. -/
theorem c2_witness :
    noAdjacentText (process_response_stream idRel c2WitnessEvents) = true ∧
      textsTrimNonempty (process_response_stream idRel c2WitnessEvents) := by
  refine c2_no_adjacent_texts_and_texts_nonempty idRel c2WitnessEvents ?_ ?_
  · intro e he
    simp only [c2WitnessEvents, List.mem_cons, List.not_mem_nil, or_false] at he
    rcases he with rfl | rfl
    · exact Or.inl rfl
    · exact Or.inr (Or.inr rfl)
  · intro e he hk
    simp only [c2WitnessEvents, List.mem_cons, List.not_mem_nil, or_false] at he
    rcases he with rfl | rfl
    · exact absurd hk (by decide)
    · rfl

/-- C3 (amended): for every event of one of the five buffer-flushing kinds,
the classifier first flushes the pending-text buffer as one `Text` segment if
it is non-empty and then emits exactly one segment of the corresponding type
carrying the full event payload — except a `thinking` event with a falsy
(empty) value, which flushes the buffer but emits no segment. -/
theorem c3_flush_kind_flushes_then_emits (rel : String → String) (e : PyVal)
    (rest : List PyVal) (buf : List String) (he : isFlushKind e = true) :
    processLoop rel (e :: rest) buf =
      flushText buf ++ emitSegment e ++ processLoop rel rest [] :=
  processLoop_flush_step rel e rest buf he

/-- C3 counterexample: a `thinking` event with empty value emits no segment at
all — the classifier output for the single-event stream is empty rather than
one `Thinking` segment carrying the payload. -/
theorem c3_cex_empty_thinking_emits_no_segment :
    process_response_stream idRel [thinkingEmptyEvent] = [] ∧
      process_response_stream idRel [thinkingEmptyEvent] ≠
        [Segment.thinking thinkingEmptyEvent] := by
  refine ⟨rfl, fun h => ?_⟩
  have h0 : process_response_stream idRel [thinkingEmptyEvent] = [] := rfl
  rw [h0] at h
  exact List.noConfusion h

/-- concrete flushing event for the C3 witness. -/
def c3WitnessEvent : PyVal := PyVal.dict [("kind", PyVal.str "prepareToolInvocation")]

/-- witness for the C3 theorem: a prepare-tool-invocation event first flushes
the pending buffer and then contributes its own segment. -/
theorem c3_witness :
    processLoop idRel [c3WitnessEvent] ["x"] =
      [Segment.text "x", Segment.prepareToolInvocation c3WitnessEvent] := by
  rw [c3_flush_kind_flushes_then_emits idRel c3WitnessEvent [] ["x"] (by decide)]
  rfl

/-! ### Substring and strip lemmas for continuation detection -/

theorem isPre_iff (n l : List Char) : isPre n l = true ↔ n <+: l := by
  induction n generalizing l with
  | nil => simp [isPre]
  | cons a xs ih =>
    cases l with
    | nil => simp [isPre]
    | cons b ys => simp [isPre, ih, List.cons_prefix_cons]

theorem containsSub_iff (n l : List Char) : containsSub n l = true ↔ n <:+: l := by
  induction l with
  | nil => simp [containsSub, List.isEmpty_iff, List.infix_nil]
  | cons c rest ih => simp [containsSub, isPre_iff, ih, List.infix_cons_iff]

/-- an occurrence of a pattern with a non-whitespace first character survives
stripping leading whitespace from the searched list. -/
theorem infix_dropWhile_of_head {n l : List Char} {c0 : Char}
    (hn : n.head? = some c0) (hc : pyIsSpace c0 = false) (h : n <:+: l) :
    n <:+: l.dropWhile pyIsSpace := by
  induction l with
  | nil =>
    rw [List.infix_nil] at h
    subst h
    simp at hn
  | cons d rest ih =>
    rw [List.infix_cons_iff] at h
    rcases h with hp | hi
    · by_cases hd : pyIsSpace d = true
      · cases n with
        | nil => simp at hn
        | cons a as =>
          obtain ⟨t, ht⟩ := hp
          have ha : a = d := by
            have := congrArg List.head? ht
            simpa using this
          have hac : a = c0 := by simpa using hn
          have : pyIsSpace d = false := by rw [← ha, hac]; exact hc
          simp [this] at hd
      · rw [List.dropWhile_cons_of_neg hd]
        exact hp.isInfix
    · by_cases hd : pyIsSpace d = true
      · rw [List.dropWhile_cons_of_pos hd]
        exact ih hi
      · rw [List.dropWhile_cons_of_neg hd]
        exact List.infix_cons hi

/-- an occurrence of a pattern whose first and last characters are not
whitespace is preserved in both directions by Python `strip`. -/
theorem infix_strip_iff {n : List Char} {c0 cl : Char}
    (h0 : n.head? = some c0) (hc0 : pyIsSpace c0 = false)
    (hl : n.getLast? = some cl) (hcl : pyIsSpace cl = false) (l : List Char) :
    n <:+: stripRightList (stripLeftList l) ↔ n <:+: l := by
  constructor
  · intro h
    refine h.trans ?_
    have h3 : ((stripLeftList l).reverse.dropWhile pyIsSpace) <:+ (stripLeftList l).reverse :=
      List.dropWhile_suffix _
    rw [← List.reverse_reverse ((stripLeftList l).reverse.dropWhile pyIsSpace)] at h3
    have h2 : stripRightList (stripLeftList l) <+: stripLeftList l :=
      List.reverse_suffix.mp h3
    exact h2.isInfix.trans (List.dropWhile_suffix pyIsSpace).isInfix
  · intro h
    have hA : n <:+: stripLeftList l := infix_dropWhile_of_head h0 hc0 h
    have hrev : n.reverse <:+: (stripLeftList l).reverse := List.reverse_infix.mpr hA
    have hB : n.reverse <:+: (stripLeftList l).reverse.dropWhile pyIsSpace :=
      infix_dropWhile_of_head (by rw [List.head?_reverse]; exact hl) hcl hrev
    have hC := List.reverse_infix.mpr hB
    rw [List.reverse_reverse] at hC
    exact hC

/-- C4: the continuation test returns true exactly when the whitespace-trimmed
message, lowercased, equals "continue", or the raw message contains the
literal `@agent Continue: "Continue to iterate?"` as a substring; in
particular "Continue", "continue" and "  CONTINUE  " are continuation
signals, "Continue please" is not, and the empty message never is. -/
theorem c4_continuation_detection :
    (∀ text : String, is_continue_message text = true ↔
        (pyLower (pyStrip text) = "continue" ∨ continueMarker.data <:+: text.data)) ∧
      is_continue_message "Continue" = true ∧
      is_continue_message "continue" = true ∧
      is_continue_message "  CONTINUE  " = true ∧
      is_continue_message "Continue please" = false ∧
      is_continue_message "" = false := by
  refine ⟨?_, by decide, by decide, by decide, by decide, rfl⟩
  intro text
  have hstrip : containsSub continueMarker.data (pyStrip text).data = true ↔
      continueMarker.data <:+: text.data := by
    rw [show (pyStrip text).data = stripRightList (stripLeftList text.data) from rfl,
      containsSub_iff]
    have hhead : continueMarker.data.head? = some '@' := by decide
    have hlast : continueMarker.data.getLast? = some '"' := by decide
    exact infix_strip_iff hhead (by decide) hlast (by decide) text.data
  simp only [is_continue_message]
  by_cases h0 : text = ""
  · subst h0
    simp only [if_pos rfl]
    constructor
    · intro h; exact Bool.noConfusion h
    · rintro (h | h)
      · exact absurd h (by decide)
      · have h' : continueMarker.data = [] := List.infix_nil.mp h
        exact absurd (congrArg List.length h') (by decide)
  · rw [if_neg h0]
    by_cases h1 : pyLower (pyStrip text) = "continue"
    · simp only [if_pos h1, true_iff]
      exact Or.inl h1
    · rw [if_neg h1]
      constructor
      · intro h
        by_cases h2 : containsSub continueMarker.data (pyStrip text).data = true
        · exact Or.inr (hstrip.mp h2)
        · rw [if_neg h2] at h
          exact Bool.noConfusion h
      · rintro (h | h)
        · exact absurd h h1
        · rw [if_pos (hstrip.mpr h)]

/-! ### Grouping lemmas -/

/-- full behaviour of the grouping loop for a non-empty open group whose
non-head turns are all continuation turns: the loop never drops or reorders a
turn, every produced group is non-empty with continuation-only tails, the
first produced group extends the open one, and every later group starts with
a non-continuation turn. -/
theorem groupLoop_spec :
    ∀ (rest current : List (Nat × PyVal)), current ≠ [] →
    (∀ p ∈ current.tail, is_continue_message (userMessage p.2) = true) →
    groupLoop rest current ≠ [] ∧
      (groupLoop rest current).flatten = current ++ rest ∧
      (∀ g ∈ groupLoop rest current, g ≠ [] ∧
        ∀ p ∈ g.tail, is_continue_message (userMessage p.2) = true) ∧
      (∀ g, (groupLoop rest current).head? = some g → ∃ ext, g = current ++ ext) ∧
      (∀ g ∈ (groupLoop rest current).tail, ∃ h t, g = h :: t ∧
        is_continue_message (userMessage h.2) = false) := by
  intro rest
  induction rest with
  | nil =>
    intro current hne htail
    have hloop : groupLoop [] current = [current] := by
      cases current with
      | nil => exact absurd rfl hne
      | cons a t => rfl
    rw [hloop]
    refine ⟨List.cons_ne_nil _ _, by simp, ?_, ?_, ?_⟩
    · intro g hg
      rw [List.mem_singleton] at hg
      exact ⟨hg ▸ hne, hg ▸ htail⟩
    · intro g hg
      rw [List.head?_cons, Option.some.injEq] at hg
      exact ⟨[], by rw [← hg, List.append_nil]⟩
    · intro g hg
      simp at hg
  | cons t rest' ih =>
    intro current hne htail
    have hisEmpty : current.isEmpty = false := by
      cases current with
      | nil => exact absurd rfl hne
      | cons a s => rfl
    by_cases hcont : is_continue_message (userMessage t.2) = true
    · have hloop : groupLoop (t :: rest') current = groupLoop rest' (current ++ [t]) := by
        simp [groupLoop, hisEmpty, hcont]
      rw [hloop]
      have htail' : ∀ p ∈ (current ++ [t]).tail, is_continue_message (userMessage p.2) = true := by
        cases current with
        | nil => exact absurd rfl hne
        | cons a s =>
          intro p hp
          simp only [List.cons_append, List.tail_cons, List.mem_append,
            List.mem_singleton] at hp
          rcases hp with hp | hp
          · exact htail p hp
          · rw [hp]; exact hcont
      obtain ⟨h1, h2, h3, h4, h5⟩ := ih (current ++ [t]) (by simp) htail'
      refine ⟨h1, by rw [h2]; simp, h3, ?_, h5⟩
      intro g hg
      obtain ⟨ext, hext⟩ := h4 g hg
      exact ⟨t :: ext, by rw [hext]; simp⟩
    · have hloop : groupLoop (t :: rest') current = current :: groupLoop rest' [t] := by
        simp [groupLoop, hisEmpty, hcont]
      rw [hloop]
      obtain ⟨h1, h2, h3, h4, h5⟩ := ih [t] (List.cons_ne_nil t [])
        (by intro p hp; simp at hp)
      refine ⟨List.cons_ne_nil _ _, ?_, ?_, ?_, ?_⟩
      · rw [List.flatten_cons, h2]; simp
      · intro g hg
        rcases List.mem_cons.mp hg with hg | hg
        · exact ⟨hg ▸ hne, hg ▸ htail⟩
        · exact h3 g hg
      · intro g hg
        rw [List.head?_cons, Option.some.injEq] at hg
        exact ⟨[], by rw [← hg, List.append_nil]⟩
      · intro g hg
        rw [List.tail_cons] at hg
        obtain ⟨g0, L'', hL'⟩ := List.exists_cons_of_ne_nil h1
        rw [hL'] at hg
        rcases List.mem_cons.mp hg with hg | hg
        · obtain ⟨ext, hext⟩ := h4 g0 (by rw [hL', List.head?_cons])
          subst hg
          cases g with
          | nil => simp at hext
          | cons gh gt =>
            have hght : gh = t := by
              have := congrArg List.head? hext
              simpa using this
            exact ⟨gh, gt, rfl, by rw [hght]; exact Bool.eq_false_iff.mpr hcont⟩
        · exact h5 g (by rw [hL', List.tail_cons]; exact hg)

/-- C5: for every non-empty request sequence, grouping produces non-empty
groups whose in-order concatenation reproduces the original 1-numbered turn
sequence exactly, and a turn other than the first shares a group with its
predecessor exactly when its user message is a continuation signal: within a
group every non-head turn is a continuation turn, and every group after the
first starts with a non-continuation turn. -/
theorem c5_grouping_partitions_turns (requests : List PyVal) (hne : requests ≠ []) :
    (groupRequests requests).flatten = requests.enumFrom 1 ∧
      (∀ g ∈ groupRequests requests, g ≠ [] ∧
        ∀ p ∈ g.tail, is_continue_message (userMessage p.2) = true) ∧
      (∀ g ∈ (groupRequests requests).tail, ∃ h t, g = h :: t ∧
        is_continue_message (userMessage h.2) = false) := by
  unfold groupRequests
  cases hreq : requests.enumFrom 1 with
  | nil =>
    cases requests with
    | nil => exact absurd rfl hne
    | cons a t => simp at hreq
  | cons p ps =>
    have h1 : groupLoop (p :: ps) [] = groupLoop ps [p] := by simp [groupLoop]
    rw [h1]
    obtain ⟨_, hflat, hall, _, htail⟩ := groupLoop_spec ps [p]
      (List.cons_ne_nil p []) (by intro q hq; simp at hq)
    exact ⟨by rw [hflat]; simp, hall, htail⟩

/-- concrete two-request document for the C5 witness: the second turn is the
continuation message `Continue`. -/
def c5WitnessRequests : List PyVal :=
  [PyVal.dict [("message", PyVal.dict [("text", PyVal.str "do the thing")])],
   PyVal.dict [("message", PyVal.dict [("text", PyVal.str "Continue")])]]

/-- witness for the C5 theorem at a concrete two-turn request sequence. -/
theorem c5_witness :
    (groupRequests c5WitnessRequests).flatten = c5WitnessRequests.enumFrom 1 ∧
      (∀ g ∈ groupRequests c5WitnessRequests, g ≠ [] ∧
        ∀ p ∈ g.tail, is_continue_message (userMessage p.2) = true) ∧
      (∀ g ∈ (groupRequests c5WitnessRequests).tail, ∃ h t, g = h :: t ∧
        is_continue_message (userMessage h.2) = false) :=
  c5_grouping_partitions_turns c5WitnessRequests (by simp [c5WitnessRequests])

/-! ### Split/join lemmas for truncation -/

theorem splitNLAux_ne_nil (l : List Char) : splitNLAux l ≠ [] := by
  cases l with
  | nil => exact List.cons_ne_nil _ _
  | cons c rest =>
    rw [splitNLAux]
    by_cases hc : c = '\n'
    · rw [if_pos hc]; exact List.cons_ne_nil _ _
    · rw [if_neg hc]
      cases splitNLAux rest with
      | nil => exact List.cons_ne_nil _ _
      | cons h t => exact List.cons_ne_nil _ _

theorem not_newline_mem_of_mem_splitNLAux :
    ∀ (l : List Char), ∀ p ∈ splitNLAux l, '\n' ∉ p := by
  intro l
  induction l with
  | nil =>
    intro p hp
    rw [show splitNLAux [] = [[]] from rfl, List.mem_singleton] at hp
    simp [hp]
  | cons c rest ih =>
    intro p hp
    rw [splitNLAux] at hp
    by_cases hc : c = '\n'
    · rw [if_pos hc] at hp
      rcases List.mem_cons.mp hp with h | h
      · simp [h]
      · exact ih p h
    · rw [if_neg hc] at hp
      cases hrest : splitNLAux rest with
      | nil => exact absurd hrest (splitNLAux_ne_nil rest)
      | cons h0 t0 =>
        rw [hrest] at hp
        rcases List.mem_cons.mp hp with h | h
        · subst h
          intro hmem
          rcases List.mem_cons.mp hmem with h | h
          · exact hc h.symm
          · exact ih h0 (hrest ▸ List.mem_cons_self h0 t0) h
        · exact ih p (hrest ▸ List.mem_cons_of_mem h0 h)

theorem splitNLAux_append_newline (a b : List Char) :
    splitNLAux (a ++ '\n' :: b) = splitNLAux a ++ splitNLAux b := by
  induction a with
  | nil => simp [splitNLAux]
  | cons c a' ih =>
    by_cases hc : c = '\n'
    · subst hc
      rw [show ('\n' :: a') ++ '\n' :: b = '\n' :: (a' ++ '\n' :: b) from rfl]
      rw [show splitNLAux ('\n' :: (a' ++ '\n' :: b)) = [] :: splitNLAux (a' ++ '\n' :: b)
        from by simp [splitNLAux]]
      rw [show splitNLAux ('\n' :: a') = [] :: splitNLAux a' from by simp [splitNLAux]]
      rw [ih]
      rfl
    · have h1 : splitNLAux (c :: (a' ++ '\n' :: b)) =
          match splitNLAux (a' ++ '\n' :: b) with
          | h :: t => (c :: h) :: t
          | [] => [[c]] := by simp [splitNLAux, hc]
      have h2 : splitNLAux (c :: a') =
          match splitNLAux a' with
          | h :: t => (c :: h) :: t
          | [] => [[c]] := by simp [splitNLAux, hc]
      rw [List.cons_append, h1, h2, ih]
      cases ha : splitNLAux a' with
      | nil => exact absurd ha (splitNLAux_ne_nil a')
      | cons h t => rfl

theorem splitNLAux_of_not_mem {l : List Char} (h : '\n' ∉ l) : splitNLAux l = [l] := by
  induction l with
  | nil => rfl
  | cons c rest ih =>
    have hc : ¬(c = '\n') := fun hc => h (by rw [← hc]; exact List.mem_cons_self c rest)
    have hrest : splitNLAux rest = [rest] := ih (fun hm => h (List.mem_cons_of_mem c hm))
    simp [splitNLAux, hc, hrest]

theorem splitNLAux_joinNLAux :
    ∀ (ls : List (List Char)), ls ≠ [] →
      splitNLAux (joinNLAux ls) = ls.flatMap splitNLAux := by
  intro ls
  induction ls with
  | nil => intro h; exact absurd rfl h
  | cons x rest ih =>
    intro _
    cases rest with
    | nil => simp [joinNLAux]
    | cons y rest' =>
      rw [show joinNLAux (x :: y :: rest') = x ++ '\n' :: joinNLAux (y :: rest') from rfl,
        splitNLAux_append_newline, ih (List.cons_ne_nil y rest')]
      simp

theorem mk_data (s : String) : String.mk s.data = s := rfl

theorem pySplitNL_pyJoinNL {xs : List String} (hne : xs ≠ []) :
    pySplitNL (pyJoinNL xs) = xs.flatMap pySplitNL := by
  unfold pySplitNL pyJoinNL
  rw [show (String.mk (joinNLAux (xs.map String.data))).data = joinNLAux (xs.map String.data)
    from rfl]
  rw [splitNLAux_joinNLAux (xs.map String.data) (by simpa using hne), List.flatMap_map]
  rw [List.map_flatMap]

theorem mem_pySplitNL_no_newline {s : String} {x : String} (hx : x ∈ pySplitNL s) :
    '\n' ∉ x.data := by
  unfold pySplitNL at hx
  obtain ⟨p, hp, hpx⟩ := List.mem_map.mp hx
  rw [← hpx]
  exact not_newline_mem_of_mem_splitNLAux s.data p hp

theorem pySplitNL_of_no_newline {x : String} (h : '\n' ∉ x.data) : pySplitNL x = [x] := by
  unfold pySplitNL
  rw [splitNLAux_of_not_mem h]
  rfl

theorem flatMap_eq_self_of_singletons {α : Type} {xs : List α} {f : α → List α}
    (h : ∀ x ∈ xs, f x = [x]) : xs.flatMap f = xs := by
  induction xs with
  | nil => rfl
  | cons a t ih =>
    rw [List.flatMap_cons, h a (List.mem_cons_self a t),
      ih (fun x hx => h x (List.mem_cons_of_mem a hx))]
    rfl

/-- C6 (amended): with head 5 and tail 5, a text of at most 12 lines is
returned unmodified; a text of exactly 20 lines yields the first 5 lines, a
blank line, one marker line reporting 10 omitted lines, a blank line, and the
last 5 lines — 13 lines in total (the marker string itself starts and ends
with a newline), not 11. -/
theorem c6_truncate_head_tail (text : String) :
    ((pySplitNL text).length ≤ 12 → truncate_output text 5 5 = text) ∧
      ((pySplitNL text).length = 20 →
        pySplitNL (truncate_output text 5 5) =
          (pySplitNL text).take 5 ++ ["", "... (10 lines omitted) ...", ""] ++
            (pySplitNL text).drop 15) := by
  constructor
  · intro h
    simp only [truncate_output]
    rw [if_pos (show (pySplitNL text).length ≤ 5 + 5 + 2 by omega)]
  · intro h20
    simp only [truncate_output]
    rw [h20]
    rw [if_neg (by omega), if_pos (by omega)]
    have hsplit : pySplitNL (pyJoinNL ((pySplitNL text).take 5 ++
        ["\n... (" ++ natRepr (20 - 5 - 5) ++ " lines omitted) ...\n"] ++
        (pySplitNL text).drop (20 - 5))) =
        ((pySplitNL text).take 5 ++
          ["\n... (" ++ natRepr (20 - 5 - 5) ++ " lines omitted) ...\n"] ++
          (pySplitNL text).drop (20 - 5)).flatMap pySplitNL :=
      pySplitNL_pyJoinNL (by simp)
    rw [hsplit, List.flatMap_append, List.flatMap_append]
    have htake : ((pySplitNL text).take 5).flatMap pySplitNL = (pySplitNL text).take 5 :=
      flatMap_eq_self_of_singletons (fun x hx =>
        pySplitNL_of_no_newline (mem_pySplitNL_no_newline (List.mem_of_mem_take hx)))
    have hdrop : ((pySplitNL text).drop (20 - 5)).flatMap pySplitNL =
        (pySplitNL text).drop (20 - 5) :=
      flatMap_eq_self_of_singletons (fun x hx =>
        pySplitNL_of_no_newline (mem_pySplitNL_no_newline (List.mem_of_mem_drop hx)))
    rw [htake, hdrop]
    rfl

/-- concrete 20-line text for the C6 counterexample and witness. -/
def t20 : String :=
  "l1\nl2\nl3\nl4\nl5\nl6\nl7\nl8\nl9\nl10\nl11\nl12\nl13\nl14\nl15\nl16\nl17\nl18\nl19\nl20"

/-- C6 counterexample: truncating a 20-line text with head 5 and tail 5
produces 13 lines, not the 11 (5 + 1 marker + 5) the claim states — the
marker contributes a blank line on each side. -/
theorem c6_cex_twenty_lines_give_thirteen :
    (pySplitNL (truncate_output t20 5 5)).length = 13 ∧
      (pySplitNL (truncate_output t20 5 5)).length ≠ 11 :=
  ⟨rfl, by decide⟩

/-- witness for the C6 theorem: a 2-line text is returned unmodified and the
concrete 20-line text produces the head lines, blank/marker/blank, and the
tail lines. -/
theorem c6_witness :
    truncate_output "a\nb" 5 5 = "a\nb" ∧
      pySplitNL (truncate_output t20 5 5) =
        (pySplitNL t20).take 5 ++ ["", "... (10 lines omitted) ...", ""] ++
          (pySplitNL t20).drop 15 :=
  ⟨(c6_truncate_head_tail "a\nb").1 (by decide), (c6_truncate_head_tail t20).2 (by decide)⟩

/-! ### Inline-reference formatting -/

theorem vGet_dict (entries : List (String × PyVal)) (k : String) (d : PyVal) :
    vGet (.dict entries) k d = (dictFind entries k).getD d := rfl

theorem vGet_of_falsy {v : PyVal} (h : truthy v = false) (k : String) (d : PyVal) :
    vGet v k d = d := by
  cases v with
  | dict entries =>
    cases entries with
    | nil => rfl
    | cons e t => simp [truthy] at h
  | none => rfl
  | bool b => rw [show truthy (.bool b) = b from rfl] at h; subst h; rfl
  | int n => rfl
  | str s => rfl
  | list xs => rfl

/-- C7: the source's inline-reference formatting agrees with the
specification's priority rules on every input. -/
theorem c7_format_inline_reference_matches_spec (rel : String → String) (resp : PyVal) :
    format_inline_reference rel resp = format_inline_reference_spec rel resp := by
  unfold format_inline_reference format_inline_reference_spec
  cases hinner : vGet resp "inlineReference" (.dict []) with
  | none => simp [isDict]
  | bool b => simp [isDict]
  | int n => simp [isDict]
  | str s => simp [isDict]
  | list xs => simp [isDict]
  | dict innerEntries =>
    simp only [isDict, Bool.not_true, Bool.false_eq_true, if_false, hasKey, vGet_dict]
    by_cases hkind : (dictFind innerEntries "kind").isSome = true
    · simp only [hkind, if_true]
      by_cases hloc : truthy ((dictFind innerEntries "location").getD (.dict [])) = true
      · simp only [hloc, if_true]
        by_cases hp : truthy (vGet (vGet ((dictFind innerEntries "location").getD (.dict []))
            "uri" (.dict [])) "path" (.str "")) = true
        · by_cases hl : truthy (vGet (vGet ((dictFind innerEntries "location").getD (.dict []))
              "range" (.dict [])) "startLineNumber" (.str "")) = true
          · simp [hp, hl]
          · simp [hp, hl]
        · simp [hp]
      · have hfalse : truthy ((dictFind innerEntries "location").getD (.dict [])) = false :=
          Bool.eq_false_iff.mpr hloc
        simp only [hloc, if_false,
          vGet_of_falsy hfalse "uri" (.dict []), vGet_of_falsy hfalse "range" (.dict [])]
        simp [truthy, vGet_dict, dictFind]
    · simp only [hkind, if_false, Bool.false_eq_true]

/-! ### Renderer lemmas -/

theorem str_suffix_append {t x : String} (h : t.data <:+ x.data) (s : String) :
    t.data <:+ (s ++ x).data := by
  rw [String.data_append]
  exact h.trans (List.suffix_append s.data x.data)

/-- every rendered turn block ends with the trailing rule `---` it writes
last. -/
theorem renderTurnS_ends_with_rule (cfg : RConfig) (rel sa : String → String)
    (toolOut : RConfig → PyVal → PyVal → String) (le : Option PyVal) (t : Nat × PyVal) :
    "---\n\n".data <:+ (renderTurnS cfg rel sa toolOut le t).1.data := by
  show "---\n\n".data <:+
    (("# Turn " ++ natRepr t.1 ++ "\n\n" ++ "## User\n\n" ++
      fstr (vGet (vGet t.2 "message" (.dict [])) "text" (.str "")) ++ "\n\n" ++
      "## Assistant\n\n" ++
      (segsLoop cfg rel sa toolOut
        (process_response_stream rel (listOf (vGet t.2 "response" (.list [])))) [] .none le).1 ++
      "---\n\n")).data
  rw [String.data_append]
  exact List.suffix_append _ _

/-- the turn loop started in non-first position renders each turn's block
preceded by the separator. -/
theorem renderTurnsS_false_blocks (cfg : RConfig) (rel sa : String → String)
    (toolOut : RConfig → PyVal → PyVal → String) :
    ∀ (g : List (Nat × PyVal)) (st : Option PyVal),
    ∃ blocks : List String,
      blocks.length = g.length ∧
      (renderTurnsS cfg rel sa toolOut false st g).1 = pyJoin (blocks.map (fun x => hrSep ++ x)) ∧
      ∀ b ∈ blocks, "---\n\n".data <:+ b.data := by
  intro g
  induction g with
  | nil => exact fun st => ⟨[], rfl, rfl, by simp⟩
  | cons t rest ih =>
    intro st
    obtain ⟨blocks, hlen, hout, hend⟩ := ih (renderTurnS cfg rel sa toolOut st t).2
    refine ⟨(renderTurnS cfg rel sa toolOut st t).1 :: blocks, by simp [hlen], ?_, ?_⟩
    · show (if false then "" else hrSep) ++ (renderTurnS cfg rel sa toolOut st t).1 ++
        (renderTurnsS cfg rel sa toolOut false (renderTurnS cfg rel sa toolOut st t).2 rest).1 = _
      rw [if_neg (by simp), hout]
      simp only [List.map_cons, pyJoin]
    · intro b hb
      rcases List.mem_cons.mp hb with hb | hb
      · rw [hb]
        exact renderTurnS_ends_with_rule cfg rel sa toolOut st t
      · exact hend b hb

/-- the rendered text of a non-empty turn list always ends with the trailing
rule of its last turn. -/
theorem renderTurnsS_trailing_rule (cfg : RConfig) (rel sa : String → String)
    (toolOut : RConfig → PyVal → PyVal → String) :
    ∀ (g : List (Nat × PyVal)) (fb : Bool) (st : Option PyVal), g ≠ [] →
    "---\n\n".data <:+ (renderTurnsS cfg rel sa toolOut fb st g).1.data := by
  intro g
  induction g with
  | nil => intro fb st h; exact absurd rfl h
  | cons t rest ih =>
    intro fb st _
    show "---\n\n".data <:+
      ((if fb then "" else hrSep) ++ (renderTurnS cfg rel sa toolOut st t).1 ++
        (renderTurnsS cfg rel sa toolOut false (renderTurnS cfg rel sa toolOut st t).2 rest).1).data
    by_cases hr : rest = []
    · subst hr
      rw [show (renderTurnsS cfg rel sa toolOut false (renderTurnS cfg rel sa toolOut st t).2 []).1 = ""
        from rfl]
      simp only [String.data_append, show ("" : String).data = [] from rfl, List.append_nil]
      exact (renderTurnS_ends_with_rule cfg rel sa toolOut st t).trans (List.suffix_append _ _)
    · rw [String.data_append]
      exact (ih false (renderTurnS cfg rel sa toolOut st t).2 hr).trans (List.suffix_append _ _)

/-- C8: the rendered Markdown of every non-empty group is a sequence of
per-turn blocks joined by the inter-turn separator, each block ending with a
horizontal rule `---` (so consecutive turns are separated by a horizontal
rule), and the whole group output ends with a trailing horizontal rule. -/
theorem c8_turns_separated_and_trailing_rule (cfg : RConfig) (rel sa : String → String)
    (toolOut : RConfig → PyVal → PyVal → String) (st : Option PyVal)
    (g : List (Nat × PyVal)) (hne : g ≠ []) :
    (∃ blocks : List String,
      blocks.length = g.length ∧
      (renderTurnsS cfg rel sa toolOut true st g).1 = sepJoinHr blocks ∧
      ∀ b ∈ blocks, "---\n\n".data <:+ b.data) ∧
    "---\n\n".data <:+ (renderTurnsS cfg rel sa toolOut true st g).1.data := by
  refine ⟨?_, renderTurnsS_trailing_rule cfg rel sa toolOut g true st hne⟩
  cases g with
  | nil => exact absurd rfl hne
  | cons t rest =>
    obtain ⟨blocks, hlen, hout, hend⟩ :=
      renderTurnsS_false_blocks cfg rel sa toolOut rest (renderTurnS cfg rel sa toolOut st t).2
    refine ⟨(renderTurnS cfg rel sa toolOut st t).1 :: blocks, by simp [hlen], ?_, ?_⟩
    · show (if true then "" else hrSep) ++ (renderTurnS cfg rel sa toolOut st t).1 ++
        (renderTurnsS cfg rel sa toolOut false (renderTurnS cfg rel sa toolOut st t).2 rest).1 = _
      rw [if_pos rfl, hout]
      rfl
    · intro b hb
      rcases List.mem_cons.mp hb with hb | hb
      · rw [hb]
        exact renderTurnS_ends_with_rule cfg rel sa toolOut st t
      · exact hend b hb

/-- concrete one-turn group for the C8 witness. -/
def c8WitnessGroup : List (Nat × PyVal) := [(1, PyVal.dict [])]

/-- witness for the C8 theorem at a concrete one-turn group. -/
theorem c8_witness :
    (∃ blocks : List String,
      blocks.length = c8WitnessGroup.length ∧
      (renderTurnsS ⟨true, false, false⟩ idRel idRel (fun _ _ _ => "") true Option.none
        c8WitnessGroup).1 = sepJoinHr blocks ∧
      ∀ b ∈ blocks, "---\n\n".data <:+ b.data) ∧
    "---\n\n".data <:+
      (renderTurnsS ⟨true, false, false⟩ idRel idRel (fun _ _ _ => "") true Option.none
        c8WitnessGroup).1.data :=
  c8_turns_separated_and_trailing_rule ⟨true, false, false⟩ idRel idRel (fun _ _ _ => "")
    Option.none c8WitnessGroup (by simp [c8WitnessGroup])

/-! ### Edit-path slot dynamics -/

/-- once the slot holds the value `None` (as it does right after a
text-edit-group segment), processing any stretch of segments containing no
`codeblockUri` leaves it at `None`. -/
theorem segsLoop_keeps_none (cfg : RConfig) (rel sa : String → String)
    (toolOut : RConfig → PyVal → PyVal → String) :
    ∀ (segs : List Segment) (buf : List PyVal) (lt : PyVal),
    (∀ s ∈ segs, s.isCodeblockUri = false) →
    (segsLoop cfg rel sa toolOut segs buf lt (some PyVal.none)).2 = some PyVal.none := by
  intro segs
  induction segs with
  | nil => intro buf lt _; rfl
  | cons s rest ih =>
    intro buf lt h
    have hrest : ∀ x ∈ rest, x.isCodeblockUri = false :=
      fun x hx => h x (List.mem_cons_of_mem s hx)
    cases s with
    | text v => simp only [segsLoop]; exact ih [] lt hrest
    | thinking p => simp only [segsLoop]; exact ih (buf ++ [p]) lt hrest
    | prepareToolInvocation p => simp only [segsLoop]; exact ih [] (vGet p "toolName" .none) hrest
    | toolInvocationSerialized p => simp only [segsLoop]; exact ih [] .none hrest
    | codeblockUri p =>
      have := h (Segment.codeblockUri p) (List.mem_cons_self _ _)
      simp [Segment.isCodeblockUri] at this
    | textEditGroup p => simp only [segsLoop]; exact ih [] lt hrest

/-- the slot is never assigned while no `codeblockUri` and no `textEditGroup`
segment has been processed. -/
theorem segsLoop_keeps_unset (cfg : RConfig) (rel sa : String → String)
    (toolOut : RConfig → PyVal → PyVal → String) :
    ∀ (segs : List Segment) (buf : List PyVal) (lt : PyVal),
    (∀ s ∈ segs, s.isCodeblockUri = false ∧ s.isTextEditGroup = false) →
    (segsLoop cfg rel sa toolOut segs buf lt Option.none).2 = Option.none := by
  intro segs
  induction segs with
  | nil => intro buf lt _; rfl
  | cons s rest ih =>
    intro buf lt h
    have hrest : ∀ x ∈ rest, x.isCodeblockUri = false ∧ x.isTextEditGroup = false :=
      fun x hx => h x (List.mem_cons_of_mem s hx)
    cases s with
    | text v => simp only [segsLoop]; exact ih [] lt hrest
    | thinking p => simp only [segsLoop]; exact ih (buf ++ [p]) lt hrest
    | prepareToolInvocation p => simp only [segsLoop]; exact ih [] (vGet p "toolName" .none) hrest
    | toolInvocationSerialized p => simp only [segsLoop]; exact ih [] .none hrest
    | codeblockUri p =>
      have := (h (Segment.codeblockUri p) (List.mem_cons_self _ _)).1
      simp [Segment.isCodeblockUri] at this
    | textEditGroup p =>
      have := (h (Segment.textEditGroup p) (List.mem_cons_self _ _)).2
      simp [Segment.isTextEditGroup] at this

/-- C10: the last-edit-path slot behaves as a function-scoped single slot.
After a text-edit-group segment, any `codeblockUri`-free continuation leaves
the slot holding Python `None`, so the next text-edit-group is labelled with
the stringified value "None"; while no `codeblockUri` or `textEditGroup` has
ever been processed the slot is unassigned, and a text-edit-group is then
labelled with the placeholder "Code Block"; a `codeblockUri` segment assigns
a path string to the slot; and the turn and group loops thread the slot
through unchanged (it is never reset at turn or group boundaries). -/
theorem c10_last_edit_path_slot (cfg : RConfig) (rel sa : String → String)
    (toolOut : RConfig → PyVal → PyVal → String) :
    (∀ (p : PyVal) (mid : List Segment) (buf : List PyVal) (lt : PyVal)
        (le : Option PyVal), (∀ s ∈ mid, s.isCodeblockUri = false) →
      (segsLoop cfg rel sa toolOut (Segment.textEditGroup p :: mid) buf lt le).2 =
        some PyVal.none) ∧
    editLabel (some PyVal.none) = "None" ∧
    (∀ (ft : Bool) (p : PyVal), tegWrite ⟨true, ft, false⟩ (some PyVal.none) p =
      "> **Editing File:** `None`\n\n") ∧
    (∀ (pre : List Segment) (buf : List PyVal) (lt : PyVal),
        (∀ s ∈ pre, s.isCodeblockUri = false ∧ s.isTextEditGroup = false) →
      (segsLoop cfg rel sa toolOut pre buf lt Option.none).2 = Option.none) ∧
    editLabel Option.none = "Code Block" ∧
    (∀ (ft : Bool) (p : PyVal), tegWrite ⟨true, ft, false⟩ Option.none p =
      "> **Editing File:** `Code Block`\n\n") ∧
    (∀ (p : PyVal) (buf : List PyVal) (lt : PyVal) (le : Option PyVal), ∃ ps : String,
      (segsLoop cfg rel sa toolOut [Segment.codeblockUri p] buf lt le).2 =
        some (PyVal.str ps)) ∧
    (∀ (st : Option PyVal) (t : Nat × PyVal),
      (renderTurnS cfg rel sa toolOut st t).2 =
        (segsLoop cfg rel sa toolOut
          (process_response_stream rel (listOf (vGet t.2 "response" (.list []))))
          [] PyVal.none st).2) ∧
    (∀ (fb : Bool) (st : Option PyVal) (t : Nat × PyVal) (ts : List (Nat × PyVal)),
      (renderTurnsS cfg rel sa toolOut fb st (t :: ts)).2 =
        (renderTurnsS cfg rel sa toolOut false (renderTurnS cfg rel sa toolOut st t).2 ts).2) ∧
    (∀ (base ext : String) (st : Option PyVal) (g : List (Nat × PyVal))
        (gs : List (List (Nat × PyVal))),
      groupsLoop cfg rel sa toolOut base ext st (g :: gs) =
        (turnFileName base ext g, (renderTurnsS cfg rel sa toolOut true st g).1) ::
          groupsLoop cfg rel sa toolOut base ext (renderTurnsS cfg rel sa toolOut true st g).2 gs) := by
  refine ⟨?_, rfl, fun ft p => rfl, segsLoop_keeps_unset cfg rel sa toolOut, rfl,
    fun ft p => rfl, ?_, fun st t => rfl, fun fb st t ts => rfl,
    fun base ext st g gs => rfl⟩
  · intro p mid buf lt le h
    simp only [segsLoop]
    exact segsLoop_keeps_none cfg rel sa toolOut mid [] lt h
  · intro p buf lt le
    unfold segsLoop cbNewEditPath
    by_cases hp : truthy (vGet (vGet p "uri" (.dict [])) "path" (.str "")) = true
    · exact ⟨rel (strOrEmpty (vGet (vGet p "uri" (.dict [])) "path" (.str ""))),
        by simp [hp, segsLoop]⟩
    · exact ⟨"Unknown File", by simp [hp, segsLoop]⟩

/-- witness for the C10 theorem: after one text-edit-group the slot holds
`None` and the next edit label renders as "None"; with the slot unassigned
the label is "Code Block". -/
theorem c10_witness :
    (segsLoop ⟨true, false, false⟩ idRel idRel (fun _ _ _ => "")
        [Segment.textEditGroup (PyVal.dict [])] [] PyVal.none Option.none).2 =
      some PyVal.none ∧
    tegWrite ⟨true, false, false⟩ (some PyVal.none) (PyVal.dict []) =
      "> **Editing File:** `None`\n\n" ∧
    (segsLoop ⟨true, false, false⟩ idRel idRel (fun _ _ _ => "")
        [Segment.text "hi"] [] PyVal.none Option.none).2 = Option.none := by
  refine ⟨?_, ?_, ?_⟩
  · exact (c10_last_edit_path_slot ⟨true, false, false⟩ idRel idRel (fun _ _ _ => "")).1
      (PyVal.dict []) [] [] PyVal.none Option.none (fun s hs => absurd hs (List.not_mem_nil s))
  · exact (c10_last_edit_path_slot ⟨true, false, false⟩ idRel idRel
      (fun _ _ _ => "")).2.2.1 false (PyVal.dict [])
  · exact (c10_last_edit_path_slot ⟨true, false, false⟩ idRel idRel
      (fun _ _ _ => "")).2.2.2.1 [Segment.text "hi"] [] PyVal.none
      (by intro s hs; rw [List.mem_singleton] at hs; subst hs; exact ⟨rfl, rfl⟩)

/-! ### Empty-input handling -/

/-- C9: a document whose `requests` sequence is empty is reported with the
no-requests diagnostic and the conversion returns without producing any turn
output file. -/
theorem c9_empty_requests_no_output (cfg : RConfig) (rel sa : String → String)
    (toolOut : RConfig → PyVal → PyVal → String) (output_path : String) (data : PyVal)
    (hempty : vGet data "requests" (.list []) = .list []) :
    process_chat_json cfg rel sa toolOut output_path data =
      { message := some "No requests found in JSON file", files := [] } := by
  unfold process_chat_json
  rw [hempty]
  rfl

/-- witness for the C9 theorem: a document with no `requests` key. -/
theorem c9_witness :
    process_chat_json ⟨true, false, false⟩ idRel idRel (fun _ _ _ => "") "chat.md"
        (PyVal.dict []) =
      { message := some "No requests found in JSON file", files := [] } :=
  c9_empty_requests_no_output ⟨true, false, false⟩ idRel idRel (fun _ _ _ => "") "chat.md"
    (PyVal.dict []) rfl

end CopilotLog
